import Mathlib

/-!
Formal model of the price monitor backend (src/backend/price_monitor.py).

The numeric type of prices and thresholds is modelled as the rationals:
the Python program computes with IEEE floats, but every claim under study
is about exact comparisons and exact decimal literals, which the rational
model captures.  A raw HTML page is abstracted by the results of the CSS
selector queries the code performs on it:

- for the storefront extractor, the list of per-selector first-match
  element texts, in selector order (an entry is none when the selector
  matches no element);
- for the marketplace extractor, the list of per-selector lists of all
  matching element texts, in selector and document order.

Exceptions of the Python runtime are modelled with the Except monad; a
value of type PyErr is an exception escaping the modelled code.
-/

inductive PyErr where
  | valueError
  | keyError
deriving DecidableEq, Repr

/-- Numeric value of a list of decimal digit characters, as Python reads
the digit string (so float applied to a pure digit string). -/
def digitsVal (cs : List Char) : Nat :=
  cs.foldl (fun n c => 10 * n + (c.toNat - 48)) 0

/-- Strict lexicographic order on character lists, by code point, exactly
the comparison Python applies to strings.  Executable by kernel reduction,
unlike the String order of the library. -/
def lexLt : List Char → List Char → Bool
  | _, [] => false
  | [], _ :: _ => true
  | a :: as, b :: bs =>
    if a < b then true else if b < a then false else lexLt as bs

theorem lexLt_irrefl : ∀ cs : List Char, lexLt cs cs = false
  | [] => rfl
  | c :: cs => by
    simp only [lexLt, lt_irrefl, if_false, lexLt_irrefl cs, if_neg]

theorem lexLt_trans : ∀ a b c : List Char,
    lexLt a b = true → lexLt b c = true → lexLt a c = true
  | _, _, [], _, h2 => by simp [lexLt] at h2
  | _, [], _ :: _, h1, _ => by simp [lexLt] at h1
  | [], _ :: _, _ :: _, _, _ => rfl
  | a0 :: as, b0 :: bs, c0 :: cs, h1, h2 => by
    simp only [lexLt] at h1 h2 ⊢
    rcases lt_trichotomy a0 b0 with hab | hab | hab
    · rcases lt_trichotomy b0 c0 with hbc | hbc | hbc
      · simp [lt_trans hab hbc]
      · subst hbc; simp [hab]
      · simp [hbc, lt_asymm hbc] at h2
    · subst hab
      simp only [lt_irrefl, if_false, if_neg] at h1
      rcases lt_trichotomy a0 c0 with hbc | hbc | hbc
      · simp [hbc]
      · subst hbc
        simp only [lt_irrefl, if_false, if_neg] at h2 ⊢
        exact lexLt_trans as bs cs h1 h2
      · simp [hbc, lt_asymm hbc] at h2
    · simp [hab, lt_asymm hab] at h1

theorem lexLt_asymm {a b : List Char} (h : lexLt a b = true) :
    lexLt b a = false := by
  cases hba : lexLt b a with
  | false => rfl
  | true =>
    have := lexLt_trans a b a h hba
    rw [lexLt_irrefl] at this
    exact absurd this (by simp)

theorem lexLt_connex : ∀ a b : List Char,
    lexLt a b = false → lexLt b a = false → a = b
  | [], [], _, _ => rfl
  | [], _ :: _, h1, _ => by simp [lexLt] at h1
  | _ :: _, [], _, h2 => by simp [lexLt] at h2
  | a0 :: as, b0 :: bs, h1, h2 => by
    simp only [lexLt] at h1 h2
    rcases lt_trichotomy a0 b0 with hab | hab | hab
    · simp [hab] at h1
    · subst hab
      simp only [lt_irrefl, if_false, if_neg] at h1 h2
      rw [lexLt_connex as bs h1 h2]
    · simp [hab, lt_asymm hab] at h2

theorem lexLt_false_trans {a b c : List Char}
    (h1 : lexLt a b = false) (h2 : lexLt b c = false) :
    lexLt a c = false := by
  cases hba : lexLt b a with
  | false => rw [lexLt_connex a b h1 hba]; exact h2
  | true =>
    cases hac : lexLt a c with
    | false => rfl
    | true =>
      have := lexLt_trans b a c hba hac
      rw [this] at h2
      exact h2

/-- Model of the Python int builtin restricted to the strings that reach
it here: a nonempty digit string parses to its value, anything else (such
as a non-numeric environment value) raises ValueError, modelled as none.
Signs, surrounding whitespace and underscores, which Python also accepts
but which play no role in any claim, are not modelled. -/
def pyInt (cs : List Char) : Option Int :=
  if cs.isEmpty then none
  else if cs.all Char.isDigit then some (digitsVal cs) else none

/-- Model of the Python float builtin on the strings that reach it here:
strings made of digits and periods (the marketplace extractor feeds it
exactly those) and the environment threshold strings.  At most one period
and at least one digit are required, otherwise ValueError, modelled as
none.  Exponent forms, signs and whitespace, which never decide a
claim, are not modelled. -/
def pyFloat (cs : List Char) : Option ℚ :=
  if cs.all (fun c => c.isDigit || c == '.') then
    match cs.count '.' with
    | 0 => if cs.isEmpty then none else some (digitsVal cs : ℚ)
    | 1 =>
      let intPart := cs.takeWhile (fun c => c ≠ '.')
      let fracPart := (cs.dropWhile (fun c => c ≠ '.')).tail
      if intPart.isEmpty && fracPart.isEmpty then none
      else some ((digitsVal intPart : ℚ) +
        (digitsVal fracPart : ℚ) / (10 : ℚ) ^ fracPart.length)
    | _ => none
  else none

/-- Truthiness of an optional environment string, as Python evaluates
os.getenv results in a boolean context: absent and empty are falsy. -/
def strTruthy : Option String → Bool
  | none => false
  | some s => s ≠ ""

/-- Python str.split with no argument, restricted to the space character
(the model names that reach it contain no other whitespace): splits on
runs of spaces and discards empty pieces. -/
def pySplitWsAux : List Char → List Char → List (List Char)
  | [], acc => if acc.isEmpty then [] else [acc.reverse]
  | c :: cs, acc =>
    if c = ' ' then
      if acc.isEmpty then pySplitWsAux cs []
      else acc.reverse :: pySplitWsAux cs []
    else pySplitWsAux cs (c :: acc)

def pySplitWs (cs : List Char) : List (List Char) := pySplitWsAux cs []

/-! ## Data model -/

/-- One record of the persisted price history, the entry dict built by
main (src/backend/price_monitor.py, lines 312 to 319). -/
structure PriceObservation where
  timestamp : String
  model : String
  price : ℚ
  source : String
  url : String
  image_url : String
deriving DecidableEq, Repr

/-- Per-model static configuration, the value part of the MODELS dict. -/
structure ModelCfg where
  source : String
  url : String
  image_url : String
deriving DecidableEq, Repr

/-- The MODELS configuration dict (lines 37 to 56), in insertion order. -/
def MODELS : List (String × ModelCfg) :=
  [("iPhone 15 Pro Max",
    ⟨"apple_refurbished",
     "https://www.apple.com/shop/product/refurbished/iphone/iphone-15-pro-max",
     "https://store.storeimages.cdn-apple.com/4982/as-images.apple.com/is/refurb-iphone-15-pro-max-naturaltitanium-256gb?wid=200&hei=200&fmt=jpeg&qlt=90&.v=1694026287138"⟩),
   ("iPhone 16 Pro Max",
    ⟨"reebelo",
     "https://www.reebelo.com/search?q=iphone+16+pro+max+256gb",
     "https://store.storeimages.cdn-apple.com/4982/as-images.apple.com/is/iphone-16-pro-max-naturaltitanium-select?wid=200&hei=200&fmt=jpeg&qlt=90&.v=1726616109456"⟩),
   ("iPhone 17 Pro Max",
    ⟨"reebelo",
     "https://www.reebelo.com/search?q=iphone+17+pro+max+256gb",
     "https://store.storeimages.cdn-apple.com/4982/as-images.apple.com/is/iphone-16-pro-max-naturaltitanium-select?wid=200&hei=200&fmt=jpeg&qlt=90&.v=1726616109456"⟩)]

/-- Dictionary lookup MODELS[model], none modelling a KeyError. -/
def modelConfig (model : String) : Option ModelCfg :=
  (MODELS.find? (fun kv => kv.1 == model)).map (fun kv => kv.2)

/-! ## Price extractors -/

/-- The digit run the storefront extractor builds from an element text
(line 108): strip commas, keep only digit characters. -/
def appleDigits (t : String) : List Char :=
  (t.data.filter (fun c => c ≠ ',')).filter Char.isDigit

/-- Numeric interpretation of a nonempty digit run (line 110): treat runs
longer than two digits as cent-denominated and divide by 100. -/
def appleInterp (ds : List Char) : ℚ :=
  if ds.length > 2 then (digitsVal ds : ℚ) / 100 else (digitsVal ds : ℚ)

/-- Extraction loop of fetch_apple_refurbished_price (lines 103 to 113).
The page argument lists, per selector in order, the text of the first
matching element, or none when the selector matches nothing.  The loop
returns on the first selector whose element text yields a nonempty digit
run and falls through to the next selector otherwise; it returns none
when no selector yields one. -/
def fetch_apple_refurbished_price : List (Option String) → Option ℚ
  | [] => none
  | none :: rest => fetch_apple_refurbished_price rest
  | some text :: rest =>
    let price_str := appleDigits text
    if price_str.isEmpty then fetch_apple_refurbished_price rest
    else some (appleInterp price_str)

/-- The character run the marketplace extractor builds from an element
text (line 149): strip commas, keep digits and periods. -/
def reebeloDigits (t : String) : List Char :=
  (t.data.filter (fun c => c ≠ ',')).filter (fun c => c.isDigit || c == '.')

/-- Per-element step of fetch_reebelo_price (lines 147 to 155): parse the
cleaned text with float, keep the value when it lies strictly between 100
and 5000, and skip the element otherwise (a float ValueError is caught by
the inner try and also skips the element). -/
def reebeloParse (t : String) : Option ℚ :=
  match pyFloat (reebeloDigits t) with
  | none => none
  | some price => if 100 < price ∧ price < 5000 then some price else none

/-- Extraction loop of fetch_reebelo_price (lines 136 to 161).  The page
argument lists, per selector in order, the texts of all matching
elements.  All candidate values across all selectors are collected and
the minimum of the retained ones is returned, none when none survive. -/
def fetch_reebelo_price (page : List (List String)) : Option ℚ :=
  let prices_found := page.join.filterMap reebeloParse
  match prices_found with
  | [] => none
  | h :: t => some (t.foldl min h)

/-! ## Drop detector -/

/-- get_latest_price sorts the entries for the model by timestamp in
descending order with the stable Python sort and takes the head (lines
190 to 197).  Any stable sort computes the same list as the Python one,
so the sort is modelled by insertion sort on the reflexive descending
timestamp relation obsBefore. -/
def obsBefore (a b : PriceObservation) : Prop :=
  lexLt a.timestamp.data b.timestamp.data = false

instance : DecidableRel obsBefore := fun a b =>
  inferInstanceAs (Decidable (_ = false))

instance : IsTrans PriceObservation obsBefore :=
  ⟨fun _ _ _ h1 h2 => lexLt_false_trans h1 h2⟩

instance : IsTotal PriceObservation obsBefore := by
  constructor
  intro a b
  cases h : lexLt a.timestamp.data b.timestamp.data with
  | false => exact Or.inl h
  | true => exact Or.inr (lexLt_asymm h)

def get_latest_price (prices : List PriceObservation) (model : String) :
    Option ℚ :=
  let model_prices := prices.filter (fun p => p.model == model)
  if model_prices.isEmpty then none
  else (List.insertionSort obsBefore model_prices).head?.map
    (fun p => p.price)

/-- check_price_drop (lines 200 to 205): false on a missing baseline,
otherwise compare the percentage drop against the threshold. -/
def check_price_drop (new_price : ℚ) (old_price : Option ℚ)
    (threshold_percent : ℚ) : Bool :=
  match old_price with
  | none => false
  | some op =>
    let drop_percent := (op - new_price) / op * 100
    decide (drop_percent ≥ threshold_percent)

/-! ## Notification sinks -/

/-- send_email_notification (lines 208 to 252).  The environment is a
function from variable names to optional values; deliveryOk abstracts the
SMTP transport (false means the session raised, which the catch-all
except turns into a False return).  The int conversion of SMTP_PORT on
line 211 happens before the configuration check and outside the try
block, so its ValueError escapes, modelled as Except.error. -/
def send_email_notification (env : String → Option String)
    (deliveryOk : Bool) (model : String) (old_price new_price : ℚ) :
    Except PyErr Bool :=
  let smtp_host := env "SMTP_HOST"
  match pyInt ((env "SMTP_PORT").getD "587").data with
  | none => .error .valueError
  | some _smtp_port =>
    let smtp_user := env "SMTP_USER"
    let smtp_password := env "SMTP_PASSWORD"
    let smtp_to := env "SMTP_TO"
    if !(strTruthy smtp_host && strTruthy smtp_user &&
        strTruthy smtp_password && strTruthy smtp_to) then
      .ok false
    else
      .ok deliveryOk

/-- send_webhook_notification (lines 255 to 284).  deliveryOk abstracts
the POST request; every exception of the try body is caught and turned
into a False return, so the function itself never raises. -/
def send_webhook_notification (env : String → Option String)
    (deliveryOk : Bool) (model : String) (old_price new_price : ℚ) :
    Bool :=
  let webhook_url := env "WEBHOOK_URL"
  if !(strTruthy webhook_url) then false
  else deliveryOk

/-- The two consecutive sink calls of main (lines 331 and 332), with both
return values discarded there. -/
def notifyBoth (env : String → Option String) (eDelivery wDelivery : Bool)
    (model : String) (old_price new_price : ℚ) :
    Except PyErr (Bool × Bool) :=
  match send_email_notification env eDelivery model old_price new_price with
  | .error e => .error e
  | .ok eb =>
    .ok (eb, send_webhook_notification env wDelivery model old_price new_price)

/-- get_threshold (lines 287 to 290).  none models an exception: an
IndexError when the model name has no second word, or a ValueError when
the environment override fails to parse as a float. -/
def get_threshold (env : String → Option String) (model : String) :
    Option ℚ :=
  match (pySplitWs model.data)[1]? with
  | none => none
  | some disc =>
    pyFloat (((env ("PRICE_THRESHOLD_" ++ String.mk disc)).getD "5.0").data)

/-! ## History store -/

/-- The JSON values exchanged with the history file, at the level of the
section 6 contract of the spec: the byte-level printer and parser belong
to the runtime and are out of scope, so the file content is modelled as
the JSON value written. -/
inductive Json where
  | str (s : String)
  | num (q : ℚ)
  | arr (elems : List Json)
  | obj (fields : List (String × Json))

/-- Field lookup in a JSON object. -/
def jlookup (fields : List (String × Json)) (k : String) : Option Json :=
  (fields.find? (fun kv => kv.1 == k)).map (fun kv => kv.2)

/-- Serialization of one history entry: the object json.dump writes for
the entry dict of main, with its six keys. -/
def obsToJson (o : PriceObservation) : Json :=
  .obj [("timestamp", .str o.timestamp), ("model", .str o.model),
        ("price", .num o.price), ("source", .str o.source),
        ("url", .str o.url), ("image_url", .str o.image_url)]

/-- Deserialization of one history entry from a JSON object. -/
def jsonToObs (j : Json) : Option PriceObservation :=
  match j with
  | .obj fs =>
    match jlookup fs "timestamp", jlookup fs "model", jlookup fs "price",
        jlookup fs "source", jlookup fs "url", jlookup fs "image_url" with
    | some (.str ts), some (.str m), some (.num p), some (.str s),
        some (.str u), some (.str iu) => some ⟨ts, m, p, s, u, iu⟩
    | _, _, _, _, _, _ => none
  | _ => none

/-- Deserialization of the whole history array. -/
def jsonToHistory (j : Json) : Option (List PriceObservation) :=
  match j with
  | .arr l => l.mapM jsonToObs
  | _ => none

/-- save_prices (lines 71 to 78): write the full history as one JSON
array.  The value written is returned. -/
def save_prices (prices : List PriceObservation) : Json :=
  .arr (prices.map obsToJson)

/-- load_prices (lines 59 to 68): an absent file (none) or a file whose
content fails to deserialize as a history array yields the empty list
with a logged warning, never an error. -/
def load_prices (file : Option Json) : List PriceObservation :=
  match file with
  | none => []
  | some j =>
    match jsonToHistory j with
    | some prices => prices
    | none => []

/-! ## Run orchestrator -/

/-- The mutable state of the loop of main: the history list, the
new_entries list and, as observation traces, the (model, old price, new
price) arguments of the check_price_drop calls and of the sink
invocations performed so far.  The traces add no behaviour; they record
the call sites of lines 329, 331 and 332 so that statements about the
arguments those calls receive can be made. -/
structure RunState where
  prices : List PriceObservation
  new_entries : List PriceObservation
  checks : List (String × ℚ × ℚ)
  notifs : List (String × ℚ × ℚ)
deriving DecidableEq, Repr

/-- One iteration of the loop of main (lines 304 to 332) for one model.
fetch abstracts fetch_price, already combining transport and extraction:
none is the NotFound or fetch-error case of line 307.  The entry is
appended to both lists; the baseline is looked up in the history without
the entry just added (line 326); the truthiness guard of line 327 skips
detection when the baseline is absent or zero; then the threshold is
read, the drop checked and both sinks invoked. -/
def runStep (fetch : String → Option ℚ) (env : String → Option String)
    (eDelivery wDelivery : Bool) (ts : String) (st : RunState)
    (model : String) : Except PyErr RunState :=
  match fetch model with
  | none => .ok st
  | some price =>
    match modelConfig model with
    | none => .error .keyError
    | some cfg =>
      let entry : PriceObservation :=
        ⟨ts, model, price, cfg.source, cfg.url, cfg.image_url⟩
      let st1 : RunState :=
        ⟨st.prices ++ [entry], st.new_entries ++ [entry], st.checks,
         st.notifs⟩
      match get_latest_price st.prices model with
      | none => .ok st1
      | some op =>
        if op = 0 then .ok st1
        else
          match get_threshold env model with
          | none => .error .valueError
          | some threshold =>
            let st2 : RunState :=
              ⟨st1.prices, st1.new_entries,
               st1.checks ++ [(model, op, price)], st1.notifs⟩
            if check_price_drop price (some op) threshold then
              match notifyBoth env eDelivery wDelivery model op price with
              | .error e => .error e
              | .ok _ =>
                .ok ⟨st2.prices, st2.new_entries, st2.checks,
                     st2.notifs ++ [(model, op, price)]⟩
            else .ok st2

/-- The loop of main over the configured models, in order. -/
def runLoop (fetch : String → Option ℚ) (env : String → Option String)
    (eDelivery wDelivery : Bool) (ts : String) :
    List String → RunState → Except PyErr RunState
  | [], st => .ok st
  | m :: ms, st =>
    match runStep fetch env eDelivery wDelivery ts st m with
    | .error e => .error e
    | .ok st1 => runLoop fetch env eDelivery wDelivery ts ms st1

/-- main (lines 293 to 337): load the history, take one timestamp for the
whole run, loop over MODELS in insertion order, save the full history. -/
def main_run (fetch : String → Option ℚ) (env : String → Option String)
    (eDelivery wDelivery : Bool) (ts : String) (file : Option Json) :
    Except PyErr (RunState × Json) :=
  let prices := load_prices file
  match runLoop fetch env eDelivery wDelivery ts (MODELS.map Prod.fst)
      ⟨prices, [], [], []⟩ with
  | .error e => .error e
  | .ok st => .ok (st, save_prices st.prices)

/-! ## Claims -/

/-- C1: for every newPrice, every oldPrice > 0 and every threshold t,
check_price_drop(newPrice, oldPrice, t) returns true exactly when
(oldPrice - newPrice) / oldPrice * 100 >= t, and with a missing baseline
it returns false for every newPrice and t. -/
theorem claim_C1 (newPrice t : ℚ) :
    (∀ o : ℚ, 0 < o →
      (check_price_drop newPrice (some o) t = true ↔
        (o - newPrice) / o * 100 ≥ t)) ∧
    check_price_drop newPrice none t = false := by
  refine ⟨fun o _ => ?_, rfl⟩
  simp [check_price_drop]

theorem claim_C1_witness :
    0 < (1000 : ℚ) ∧
      (check_price_drop 940 (some 1000) 5 = true ↔
        ((1000 : ℚ) - 940) / 1000 * 100 ≥ 5) :=
  ⟨by decide, (claim_C1 940 5).1 1000 (by decide)⟩

/-- C2 counterexample: on a page whose first selector matches an element
with text containing no digit and whose second selector matches an
element with text containing digits, the claim requires NotFound, the
first matching selector having produced an empty digit run; the code
instead falls through to the second selector and returns its value. -/
theorem claim_C2_counterexample :
    fetch_apple_refurbished_price [some "N/A", some "$49"] = some 49 := by
  decide

/-- C2 (amended): the storefront extractor walks the selectors in order
and returns the interpreted value of the first matching element whose
text yields a nonempty digit run, skipping matched elements whose digit
run is empty rather than stopping at them; it returns none when no
selector yields one.  The interpretation divides by 100 exactly when the
digit run is longer than two characters, so the text built from dollar
sign, comma and the digits 1234 yields 12.34. -/
theorem claim_C2 :
    (∀ page : List (Option String),
      fetch_apple_refurbished_price page =
        ((((page.filterMap id).map appleDigits).filter
          (fun ds => !ds.isEmpty)).head?).map appleInterp) ∧
    fetch_apple_refurbished_price [some "$1,234"] = some 12.34 ∧
    (12.34 : ℚ) = 1234 / 100 := by
  have hchar : ∀ page : List (Option String),
      fetch_apple_refurbished_price page =
        ((((page.filterMap id).map appleDigits).filter
          (fun ds => !ds.isEmpty)).head?).map appleInterp := by
    intro page
    induction page with
    | nil => rfl
    | cons hd rest ih =>
      cases hd with
      | none => simpa [List.filterMap_cons] using ih
      | some t =>
        by_cases h : (appleDigits t).isEmpty
        · simpa [fetch_apple_refurbished_price, List.filterMap_cons,
            List.filter_cons, h] using ih
        · simp [fetch_apple_refurbished_price, List.filterMap_cons,
            List.filter_cons, h]
  refine ⟨hchar, ?_, by norm_num⟩
  have hds : appleDigits "$1,234" = ['1', '2', '3', '4'] := by decide
  have hdvn : digitsVal ['1', '2', '3', '4'] = 1234 := by decide
  have hdv : (digitsVal ['1', '2', '3', '4'] : ℚ) = 1234 := by
    rw [hdvn]; norm_num
  rw [hchar]
  simp [List.filterMap_cons, List.filter_cons, hds, appleInterp, hdv]
  norm_num

/-- C5: on every abstracted page, malformed or empty content included,
both extractors are total functions into an optional price: the result
is none or some value and no exception escapes.  The closed conjuncts
exercise the conversion of parse failures to NotFound: a matched text
without digits, and a marketplace text whose cleaned form raises
ValueError inside float (three periods), both end in none. -/
theorem claim_C5 :
    (∀ aPage : List (Option String),
      fetch_apple_refurbished_price aPage = none ∨
        ∃ p, fetch_apple_refurbished_price aPage = some p) ∧
    (∀ rPage : List (List String),
      fetch_reebelo_price rPage = none ∨
        ∃ p, fetch_reebelo_price rPage = some p) ∧
    fetch_apple_refurbished_price [some "no price found"] = none ∧
    pyFloat (reebeloDigits "...") = none ∧
    fetch_reebelo_price [["...", "N/A", ""]] = none := by
  refine ⟨fun aPage => ?_, fun rPage => ?_, by decide, by decide, by decide⟩
  · cases h : fetch_apple_refurbished_price aPage with
    | none => exact Or.inl rfl
    | some p => exact Or.inr ⟨p, rfl⟩
  · cases h : fetch_reebelo_price rPage with
    | none => exact Or.inl rfl
    | some p => exact Or.inr ⟨p, rfl⟩

/-- C3: get_latest_price returns none exactly when no entry matches the
model, and otherwise the price of a matching entry whose timestamp is
lexicographically greatest among the matching entries.  The function is a
pure function of its arguments, so the tie-break among equal maximal
timestamps is deterministic. -/
theorem claim_C3 (prices : List PriceObservation) (model : String) :
    (get_latest_price prices model = none ↔
      ∀ p ∈ prices, p.model ≠ model) ∧
    (∀ q, get_latest_price prices model = some q →
      ∃ e, e ∈ prices ∧ e.model = model ∧ e.price = q ∧
        ∀ e2 ∈ prices, e2.model = model →
          lexLt e.timestamp.data e2.timestamp.data = false) := by
  have hmem : ∀ p : PriceObservation,
      p ∈ prices.filter (fun p => p.model == model) ↔
        p ∈ prices ∧ p.model = model := by
    intro p
    rw [List.mem_filter]
    simp
  constructor
  · constructor
    · intro h p hp hpm
      by_cases he : (prices.filter (fun p => p.model == model)).isEmpty
      · rw [List.isEmpty_iff] at he
        have := List.filter_eq_nil_iff.mp he p hp
        simp [hpm] at this
      · exfalso
        rw [Bool.not_eq_true] at he
        simp only [get_latest_price] at h
        rw [he] at h
        simp only [Bool.false_eq_true, if_false] at h
        have hne : prices.filter (fun p => p.model == model) ≠ [] := by
          intro hnil
          rw [hnil] at he
          simp at he
        have hperm := List.perm_insertionSort obsBefore
          (prices.filter (fun p => p.model == model))
        cases hh : List.insertionSort obsBefore
            (prices.filter (fun p => p.model == model)) with
        | nil =>
          rw [hh] at hperm
          exact hne hperm.nil_eq.symm
        | cons a l =>
          rw [hh] at h
          simp at h
    · intro hall
      have : prices.filter (fun p => p.model == model) = [] :=
        List.filter_eq_nil_iff.mpr (fun a ha => by simpa using hall a ha)
      simp [get_latest_price, this]
  · intro q hq
    simp only [get_latest_price] at hq
    by_cases he : (prices.filter (fun p => p.model == model)).isEmpty
    · rw [he] at hq
      simp at hq
    · rw [Bool.not_eq_true] at he
      rw [he] at hq
      simp only [Bool.false_eq_true, if_false] at hq
      have hperm := List.perm_insertionSort obsBefore
        (prices.filter (fun p => p.model == model))
      have hsort := List.sorted_insertionSort obsBefore
        (prices.filter (fun p => p.model == model))
      cases hh : List.insertionSort obsBefore
          (prices.filter (fun p => p.model == model)) with
      | nil =>
        rw [hh] at hq
        simp at hq
      | cons a l =>
        rw [hh] at hq hperm hsort
        simp only [List.head?_cons, Option.map_some] at hq
        have haq : a.price = q := by
          injection hq
        have hamem : a ∈ prices.filter (fun p => p.model == model) :=
          hperm.subset (List.mem_cons_self a l)
        refine ⟨a, ((hmem a).mp hamem).1, ((hmem a).mp hamem).2, haq, ?_⟩
        intro e2 he2 he2m
        have he2f : e2 ∈ a :: l :=
          hperm.mem_iff.mpr ((hmem e2).mpr ⟨he2, he2m⟩)
        rcases List.mem_cons.mp he2f with rfl | he2l
        · exact lexLt_irrefl _
        · exact List.rel_of_sorted_cons hsort e2 he2l

def histW3 : List PriceObservation :=
  [⟨"2024-01-01T00:00:00", "iPhone 15 Pro Max", 100, "apple_refurbished",
    "u1", ""⟩,
   ⟨"2024-01-02T00:00:00", "iPhone 15 Pro Max", 90, "apple_refurbished",
    "u2", ""⟩,
   ⟨"2024-01-03T00:00:00", "iPhone 16 Pro Max", 80, "reebelo", "u3", ""⟩]

theorem claim_C3_witness :
    get_latest_price histW3 "iPhone 15 Pro Max" = some 90 ∧
    (∃ e, e ∈ histW3 ∧ e.model = "iPhone 15 Pro Max" ∧ e.price = 90 ∧
      ∀ e2 ∈ histW3, e2.model = "iPhone 15 Pro Max" →
        lexLt e.timestamp.data e2.timestamp.data = false) :=
  ⟨by decide, (claim_C3 histW3 "iPhone 15 Pro Max").2 90 (by decide)⟩

theorem foldl_min_mem (h : ℚ) (t : List ℚ) : t.foldl min h ∈ h :: t := by
  induction t generalizing h with
  | nil => simp
  | cons c t ih =>
    rw [List.foldl_cons]
    rcases List.mem_cons.mp (ih (min h c)) with h1 | h1
    · rw [h1]
      rcases min_choice h c with hm | hm <;> simp [hm]
    · simp [h1]

theorem foldl_min_le (h : ℚ) (t : List ℚ) : ∀ x ∈ h :: t, t.foldl min h ≤ x := by
  induction t generalizing h with
  | nil =>
    intro x hx
    rw [List.mem_singleton] at hx
    simp [hx]
  | cons c t ih =>
    intro x hx
    rw [List.foldl_cons]
    have hbase : List.foldl min (min h c) t ≤ min h c :=
      ih (min h c) (min h c) (List.mem_cons_self _ _)
    rcases List.mem_cons.mp hx with h1 | hx2
    · rw [h1]
      exact le_trans hbase (min_le_left _ _)
    · rcases List.mem_cons.mp hx2 with h2 | hx3
      · rw [h2]
        exact le_trans hbase (min_le_right _ _)
      · exact ih (min h c) x (List.mem_cons.mpr (Or.inr hx3))

/-- C4: the marketplace extractor parses every matched element text after
stripping commas and keeping digits and periods, retains exactly the
values strictly between 100 and 5000, and returns none exactly when no
value is retained and otherwise the minimum of the retained values. -/
theorem claim_C4 (page : List (List String)) :
    (∀ t q, reebeloParse t = some q ↔
      (pyFloat (reebeloDigits t) = some q ∧ 100 < q ∧ q < 5000)) ∧
    (fetch_reebelo_price page = none ↔
      ∀ t ∈ page.join, reebeloParse t = none) ∧
    (∀ p, fetch_reebelo_price page = some p →
      (∃ t ∈ page.join, reebeloParse t = some p) ∧
      ∀ t ∈ page.join, ∀ q, reebeloParse t = some q → p ≤ q) := by
  refine ⟨?_, ?_, ?_⟩
  · intro t q
    cases hpf : pyFloat (reebeloDigits t) with
    | none => simp [reebeloParse, hpf]
    | some price =>
      by_cases hr : 100 < price ∧ price < 5000
      · simp only [reebeloParse, hpf, hr, if_true]
        constructor
        · intro hpq
          injection hpq with hpq
          subst hpq
          exact ⟨rfl, hr⟩
        · rintro ⟨hpq, _⟩
          injection hpq with hpq
          simp [hpq]
      · simp only [reebeloParse, hpf, hr, if_false]
        constructor
        · intro hh
          simp at hh
        · rintro ⟨hpq, hrq⟩
          injection hpq with hpq
          subst hpq
          exact absurd hrq hr
  · simp only [fetch_reebelo_price]
    cases hf : page.join.filterMap reebeloParse with
    | nil =>
      simp only [true_iff]
      rw [List.filterMap_eq_nil_iff] at hf
      exact hf
    | cons h t =>
      simp only [reduceCtorEq, false_iff]
      intro hall
      have : h ∈ List.filterMap reebeloParse page.join := by
        rw [hf]
        exact List.mem_cons_self _ _
      rw [List.mem_filterMap] at this
      obtain ⟨a, ha, hpa⟩ := this
      rw [hall a ha] at hpa
      exact absurd hpa (by simp)
  · intro p hp
    simp only [fetch_reebelo_price] at hp
    cases hf : page.join.filterMap reebeloParse with
    | nil =>
      rw [hf] at hp
      simp at hp
    | cons h t =>
      rw [hf] at hp
      simp only [Option.some.injEq] at hp
      constructor
      · have hmem : p ∈ h :: t := hp ▸ foldl_min_mem h t
        rw [← hf, List.mem_filterMap] at hmem
        obtain ⟨a, ha, hpa⟩ := hmem
        exact ⟨a, ha, hpa⟩
      · intro t2 ht2 q hq
        have hqmem : q ∈ h :: t := by
          rw [← hf, List.mem_filterMap]
          exact ⟨t2, ht2, hq⟩
        exact hp ▸ foldl_min_le h t q hqmem

theorem claim_C4_witness :
    fetch_reebelo_price [["$999", "noise"], ["$1,200"]] = some 999 ∧
      ((999 : ℕ) : ℚ) ≤ ((1200 : ℕ) : ℚ) :=
  ⟨by decide,
   ((claim_C4 [["$999", "noise"], ["$1,200"]]).2.2 999 (by decide)).2
     "$1,200" (by decide) ((1200 : ℕ) : ℚ) (by decide)⟩

/-- C6: a model whose fetch or extraction yields none contributes nothing
to the run: the loop state after processing the model list with the
failing model present equals the state after processing the list with it
removed, so no observation is appended for it, later models are still
processed, and their observations and notifications are unchanged. -/
theorem claim_C6 (fetch : String → Option ℚ) (env : String → Option String)
    (eD wD : Bool) (ts : String) (m : String) (ms1 ms2 : List String)
    (st : RunState) (h : fetch m = none) :
    runLoop fetch env eD wD ts (ms1 ++ m :: ms2) st =
      runLoop fetch env eD wD ts (ms1 ++ ms2) st := by
  induction ms1 generalizing st with
  | nil =>
    simp only [List.nil_append, runLoop, runStep, h]
  | cons a ms1 ih =>
    simp only [List.cons_append, runLoop]
    cases runStep fetch env eD wD ts st a with
    | error e => rfl
    | ok st1 => exact ih st1

def fetchC6 : String → Option ℚ :=
  fun m => if m == "iPhone 16 Pro Max" then none else some 999

theorem claim_C6_witness :
    fetchC6 "iPhone 16 Pro Max" = none ∧
    runLoop fetchC6 (fun _ => none) false false "t0"
        (["iPhone 15 Pro Max"] ++ "iPhone 16 Pro Max" :: ["iPhone 17 Pro Max"])
        ⟨[], [], [], []⟩ =
      runLoop fetchC6 (fun _ => none) false false "t0"
        (["iPhone 15 Pro Max"] ++ ["iPhone 17 Pro Max"]) ⟨[], [], [], []⟩ :=
  ⟨rfl, claim_C6 fetchC6 (fun _ => none) false false "t0" "iPhone 16 Pro Max"
    ["iPhone 15 Pro Max"] ["iPhone 17 Pro Max"] ⟨[], [], [], []⟩ rfl⟩

def envBadPort : String → Option String :=
  fun k => if k == "SMTP_PORT" then some "abc" else none

/-- C7 counterexample: in an environment where SMTP_PORT is set to a
non-numeric string and every other variable, SMTP_TO included, is
absent, the claim requires the email sink to return a failure indicator
without raising; the code instead raises a ValueError from the int
conversion of SMTP_PORT, which runs before the configuration
completeness check and outside the try block. -/
theorem claim_C7_counterexample :
    send_email_notification envBadPort true "iPhone 15 Pro Max" 1000 940 =
      .error .valueError := rfl

/-- C7 (amended): provided SMTP_PORT, when set, parses as an integer (it
defaults to 587 when absent), the email sink never raises; with any
required email variable missing, SMTP_TO for instance, it returns false
without raising; and the pair of sink calls performed by main always
attempts the webhook sink with a result independent of the email
outcome.  When SMTP_PORT is set to a non-numeric string the email sink
raises before the try block and the webhook sink is not attempted. -/
theorem claim_C7 (env : String → Option String) (eD wD : Bool)
    (model : String) (o n : ℚ)
    (hport : (pyInt ((env "SMTP_PORT").getD "587").data).isSome = true) :
    (∃ b, send_email_notification env eD model o n = .ok b) ∧
    (strTruthy (env "SMTP_TO") = false →
      send_email_notification env eD model o n = .ok false) ∧
    (∃ b, notifyBoth env eD wD model o n =
      .ok (b, send_webhook_notification env wD model o n)) := by
  cases hp : pyInt ((env "SMTP_PORT").getD "587").data with
  | none => rw [hp] at hport; simp at hport
  | some port =>
    have hok : ∃ b, send_email_notification env eD model o n = .ok b := by
      cases hb : (strTruthy (env "SMTP_HOST") && strTruthy (env "SMTP_USER") &&
          strTruthy (env "SMTP_PASSWORD") && strTruthy (env "SMTP_TO")) with
      | false =>
        exact ⟨false, by simp only [send_email_notification, hp, hb]; rfl⟩
      | true =>
        exact ⟨eD, by simp only [send_email_notification, hp, hb]; rfl⟩
    refine ⟨hok, ?_, ?_⟩
    · intro hto
      simp only [send_email_notification, hp, hto]
      simp
    · obtain ⟨b, hb⟩ := hok
      exact ⟨b, by unfold notifyBoth; rw [hb]⟩

def envEmptyW : String → Option String := fun _ => none

theorem claim_C7_witness :
    (pyInt ((envEmptyW "SMTP_PORT").getD "587").data).isSome = true ∧
    ((∃ b, send_email_notification envEmptyW false "iPhone 15 Pro Max"
        1000 940 = .ok b) ∧
     (strTruthy (envEmptyW "SMTP_TO") = false →
       send_email_notification envEmptyW false "iPhone 15 Pro Max"
         1000 940 = .ok false) ∧
     (∃ b, notifyBoth envEmptyW false true "iPhone 15 Pro Max" 1000 940 =
       .ok (b, send_webhook_notification envEmptyW true "iPhone 15 Pro Max"
         1000 940))) :=
  ⟨by decide,
   claim_C7 envEmptyW false true "iPhone 15 Pro Max" 1000 940 (by decide)⟩

/-- C8: serializing a history with save_prices and deserializing the
written value with load_prices restores the history exactly, for every
history.  The byte-level JSON printing and parsing belong to the runtime
and are modelled at the value level of the file contract: one array of
objects with the six entry keys. -/
theorem claim_C8 (h : List PriceObservation) :
    load_prices (some (save_prices h)) = h := by
  have hobs : ∀ o : PriceObservation, jsonToObs (obsToJson o) = some o :=
    fun o => rfl
  have hmap : (h.map obsToJson).mapM jsonToObs = some h := by
    induction h with
    | nil => rfl
    | cons a t ih =>
      rw [List.map_cons, List.mapM_cons, hobs a, ih]
      rfl
  simp only [load_prices, save_prices, jsonToHistory, hmap]

theorem runStep_ok (fetch : String → Option ℚ) (env : String → Option String)
    (eD wD : Bool) (ts : String) (st : RunState) (m : String)
    (st1 : RunState) (h : runStep fetch env eD wD ts st m = .ok st1) :
    ∃ added checksAdded notifsAdded,
      st1.prices = st.prices ++ added ∧
      st1.new_entries = st.new_entries ++ added ∧
      st1.checks = st.checks ++ checksAdded ∧
      st1.notifs = st.notifs ++ notifsAdded ∧
      (∀ e ∈ added, e.timestamp = ts) ∧
      (∀ x ∈ checksAdded, x.2.1 ≠ 0) ∧
      (∀ x ∈ notifsAdded, x.2.1 ≠ 0) := by
  cases hf : fetch m with
  | none =>
    simp only [runStep, hf] at h
    injection h with h
    subst h
    exact ⟨[], [], [], by simp, by simp, by simp, by simp, by simp, by simp,
      by simp⟩
  | some price =>
    cases hcfg : modelConfig m with
    | none =>
      simp only [runStep, hf, hcfg] at h
      exact Except.noConfusion h
    | some cfg =>
      cases hold : get_latest_price st.prices m with
      | none =>
        simp only [runStep, hf, hcfg, hold] at h
        injection h with h
        subst h
        refine ⟨[⟨ts, m, price, cfg.source, cfg.url, cfg.image_url⟩], [], [],
          by simp, by simp, by simp, by simp, ?_, by simp, by simp⟩
        intro e he
        rw [List.mem_singleton] at he
        simp [he]
      | some op =>
        by_cases hop : op = 0
        · simp only [runStep, hf, hcfg, hold, if_pos hop] at h
          injection h with h
          subst h
          refine ⟨[⟨ts, m, price, cfg.source, cfg.url, cfg.image_url⟩], [], [],
            by simp, by simp, by simp, by simp, ?_, by simp, by simp⟩
          intro e he
          rw [List.mem_singleton] at he
          simp [he]
        · cases hthr : get_threshold env m with
          | none =>
            simp only [runStep, hf, hcfg, hold, if_neg hop, hthr] at h
            exact Except.noConfusion h
          | some threshold =>
            cases hchk : check_price_drop price (some op) threshold with
            | false =>
              simp only [runStep, hf, hcfg, hold, if_neg hop, hthr, hchk,
                Bool.false_eq_true, if_false] at h
              injection h with h
              subst h
              refine ⟨[⟨ts, m, price, cfg.source, cfg.url, cfg.image_url⟩],
                [(m, op, price)], [],
                by simp, by simp, by simp, by simp, ?_, ?_, by simp⟩
              · intro e he
                rw [List.mem_singleton] at he
                simp [he]
              · intro x hx
                rw [List.mem_singleton] at hx
                subst hx
                exact hop
            | true =>
              cases hnb : notifyBoth env eD wD m op price with
              | error e =>
                simp only [runStep, hf, hcfg, hold, if_neg hop, hthr, hchk,
                  if_true, hnb] at h
                exact Except.noConfusion h
              | ok pr =>
                simp only [runStep, hf, hcfg, hold, if_neg hop, hthr, hchk,
                  if_true, hnb] at h
                injection h with h
                subst h
                refine ⟨[⟨ts, m, price, cfg.source, cfg.url, cfg.image_url⟩],
                  [(m, op, price)], [(m, op, price)],
                  by simp, by simp, by simp, by simp, ?_, ?_, ?_⟩
                · intro e he
                  rw [List.mem_singleton] at he
                  simp [he]
                · intro x hx
                  rw [List.mem_singleton] at hx
                  subst hx
                  exact hop
                · intro x hx
                  rw [List.mem_singleton] at hx
                  subst hx
                  exact hop

theorem runLoop_ok (fetch : String → Option ℚ) (env : String → Option String)
    (eD wD : Bool) (ts : String) :
    ∀ (models : List String) (st st1 : RunState),
      runLoop fetch env eD wD ts models st = .ok st1 →
      ∃ added checksAdded notifsAdded,
        st1.prices = st.prices ++ added ∧
        st1.new_entries = st.new_entries ++ added ∧
        st1.checks = st.checks ++ checksAdded ∧
        st1.notifs = st.notifs ++ notifsAdded ∧
        (∀ e ∈ added, e.timestamp = ts) ∧
        (∀ x ∈ checksAdded, x.2.1 ≠ 0) ∧
        (∀ x ∈ notifsAdded, x.2.1 ≠ 0)
  | [], st, st1, h => by
    simp only [runLoop] at h
    injection h with h
    subst h
    exact ⟨[], [], [], by simp, by simp, by simp, by simp, by simp, by simp,
      by simp⟩
  | m :: ms, st, st1, h => by
    cases hrs : runStep fetch env eD wD ts st m with
    | error e =>
      rw [runLoop, hrs] at h
      exact Except.noConfusion h
    | ok stm =>
      rw [runLoop, hrs] at h
      obtain ⟨a1, c1, n1, hp1, he1, hc1, hn1, ht1, hcz1, hnz1⟩ :=
        runStep_ok fetch env eD wD ts st m stm hrs
      obtain ⟨a2, c2, n2, hp2, he2, hc2, hn2, ht2, hcz2, hnz2⟩ :=
        runLoop_ok fetch env eD wD ts ms stm st1 h
      refine ⟨a1 ++ a2, c1 ++ c2, n1 ++ n2, ?_, ?_, ?_, ?_, ?_, ?_, ?_⟩
      · rw [hp2, hp1, List.append_assoc]
      · rw [he2, he1, List.append_assoc]
      · rw [hc2, hc1, List.append_assoc]
      · rw [hn2, hn1, List.append_assoc]
      · intro e he
        rcases List.mem_append.mp he with h1 | h2
        exacts [ht1 e h1, ht2 e h2]
      · intro x hx
        rcases List.mem_append.mp hx with h1 | h2
        exacts [hcz1 x h1, hcz2 x h2]
      · intro x hx
        rcases List.mem_append.mp hx with h1 | h2
        exacts [hnz1 x h1, hnz2 x h2]

/-- C9: starting from the loaded history and the empty new_entries list,
every observation the loop appends carries the single timestamp taken
before the loop: the final history is the initial one followed by the
new entries, and every new entry has exactly that timestamp. -/
theorem claim_C9 (fetch : String → Option ℚ) (env : String → Option String)
    (eD wD : Bool) (ts : String) (models : List String)
    (p0 : List PriceObservation) (st1 : RunState)
    (hrun : runLoop fetch env eD wD ts models ⟨p0, [], [], []⟩ = .ok st1) :
    st1.prices = p0 ++ st1.new_entries ∧
      ∀ e ∈ st1.new_entries, e.timestamp = ts := by
  obtain ⟨a, c, n, hp, he, hc, hn, ht, _, _⟩ :=
    runLoop_ok fetch env eD wD ts models ⟨p0, [], [], []⟩ st1 hrun
  simp only [List.nil_append] at he
  constructor
  · rw [hp, he]
  · intro e hee
    rw [he] at hee
    exact ht e hee

/-- C10: along every completed run started from empty traces, every
invocation of check_price_drop and every sink invocation receives a
nonzero old price: the truthiness guard of main filters out an absent or
zero baseline before any of the three divisions by the old price can
run. -/
theorem claim_C10 (fetch : String → Option ℚ) (env : String → Option String)
    (eD wD : Bool) (ts : String) (models : List String)
    (p0 : List PriceObservation) (st1 : RunState)
    (hrun : runLoop fetch env eD wD ts models ⟨p0, [], [], []⟩ = .ok st1) :
    (∀ x ∈ st1.checks, x.2.1 ≠ 0) ∧ (∀ x ∈ st1.notifs, x.2.1 ≠ 0) := by
  obtain ⟨a, c, n, hp, he, hc, hn, _, hcz, hnz⟩ :=
    runLoop_ok fetch env eD wD ts models ⟨p0, [], [], []⟩ st1 hrun
  simp only [List.nil_append] at hc hn
  constructor
  · intro x hx
    rw [hc] at hx
    exact hcz x hx
  · intro x hx
    rw [hn] at hx
    exact hnz x hx

def cfg15 : ModelCfg :=
  ⟨"apple_refurbished",
   "https://www.apple.com/shop/product/refurbished/iphone/iphone-15-pro-max",
   "https://store.storeimages.cdn-apple.com/4982/as-images.apple.com/is/refurb-iphone-15-pro-max-naturaltitanium-256gb?wid=200&hei=200&fmt=jpeg&qlt=90&.v=1694026287138"⟩

def stW9 : RunState :=
  ⟨[⟨"t0", "iPhone 15 Pro Max", 999, cfg15.source, cfg15.url,
     cfg15.image_url⟩],
   [⟨"t0", "iPhone 15 Pro Max", 999, cfg15.source, cfg15.url,
     cfg15.image_url⟩],
   [], []⟩

theorem claim_C9_witness :
    runLoop (fun _ => some 999) (fun _ => none) false false "t0"
      ["iPhone 15 Pro Max"] ⟨[], [], [], []⟩ = .ok stW9 ∧
    (stW9.prices = [] ++ stW9.new_entries ∧
      ∀ e ∈ stW9.new_entries, e.timestamp = "t0") :=
  ⟨rfl, claim_C9 (fun _ => some 999) (fun _ => none) false false "t0"
    ["iPhone 15 Pro Max"] [] stW9 rfl⟩

def obsW10 : PriceObservation :=
  ⟨"2024-05-01T00:00:00", "iPhone 15 Pro Max", 1000, "apple_refurbished",
   "u", ""⟩

def entryW10 : PriceObservation :=
  ⟨"t1", "iPhone 15 Pro Max", 900, cfg15.source, cfg15.url, cfg15.image_url⟩

def stW10 : RunState :=
  ⟨[obsW10, entryW10], [entryW10],
   [("iPhone 15 Pro Max", 1000, 900)], [("iPhone 15 Pro Max", 1000, 900)]⟩

def fetchW10 : String → Option ℚ := fun _ => some 900

def envW10 : String → Option String :=
  fun k => if k == "PRICE_THRESHOLD_15" then some "4" else none

theorem runW10_eq :
    runLoop fetchW10 envW10 false false "t1" ["iPhone 15 Pro Max"]
      ⟨[obsW10], [], [], []⟩ = .ok stW10 := by
  have hchk : check_price_drop 900 (some 1000) ((4 : ℕ) : ℚ) = true := by
    simp only [check_price_drop]
    rw [decide_eq_true_eq]
    norm_num
  simp only [runLoop, runStep,
    show fetchW10 "iPhone 15 Pro Max" = some 900 from rfl,
    show modelConfig "iPhone 15 Pro Max" = some cfg15 from rfl,
    show get_latest_price [obsW10] "iPhone 15 Pro Max" = some 1000 from rfl,
    show get_threshold envW10 "iPhone 15 Pro Max" = some ((4 : ℕ) : ℚ)
      from rfl,
    hchk,
    show notifyBoth envW10 false false "iPhone 15 Pro Max" 1000 900 =
      .ok (false, false) from rfl]
  rw [if_neg (by norm_num : ¬ (1000 : ℚ) = 0)]
  rfl

theorem claim_C10_witness :
    runLoop fetchW10 envW10 false false "t1" ["iPhone 15 Pro Max"]
      ⟨[obsW10], [], [], []⟩ = .ok stW10 ∧ (1000 : ℚ) ≠ 0 :=
  ⟨runW10_eq,
   (claim_C10 fetchW10 envW10 false false "t1" ["iPhone 15 Pro Max"]
     [obsW10] stW10 runW10_eq).2 ("iPhone 15 Pro Max", 1000, 900)
     (by decide)⟩
